import Mathlib

/-!
Verification development for the libvma ring-bonding / MP-RQ packet path.

The definitions below are shallow embeddings of the C++ sources:
  * `ring_bond.cpp` (ring aggregation, failover, buffer-ownership routing),
  * `cq_mgr_mp.cpp` (multi-packet receive-queue completion decoder),
  * `ring_eth_cb.cpp` (cyclic-buffer consumer state machine).
Machine integers are modelled as `Nat` with explicit masking where the C
types (`uint8_t`/`uint16_t`/`uint32_t`) truncate; pointers that are only
compared for identity are modelled as `Nat` identities, and nullable
pointers as `Option`.
-/

/-! ## Byte-order helpers

The code runs on a little-endian host, so `ntohs`/`ntohl`/`htons` are byte
swaps of the 16/32-bit value. -/

def htons (x : Nat) : Nat :=
  (x % 256) * 256 + (x / 256) % 256

def ntohs (x : Nat) : Nat :=
  htons x

def ntohl (x : Nat) : Nat :=
  let b0 := x % 256
  let b1 := x / 256 % 256
  let b2 := x / 65536 % 256
  let b3 := x / 16777216 % 256
  ((b0 * 256 + b1) * 256 + b2) * 256 + b3

def ntohll (x : Nat) : Nat :=
  ntohl (x / 4294967296) + (ntohl (x % 4294967296)) * 4294967296

/-! ## Linux / driver constants used by the sources -/

def ETH_P_IP : Nat := 0x0800
def ETH_P_8021Q : Nat := 0x8100
def MSG_DONTWAIT : Int := 0x40

/-- Hard cap on the number of member rings of a bonding device
(`#define MAX_NUM_RING_RESOURCES 10` in `ring_bond.cpp`). -/
def MAX_NUM_RING_RESOURCES : Nat := 10

/-! ## Bonding mode and transmit hash policy

Modelled from the spec: the enums `net_device_val::bond_type` and
`net_device_val::bond_xmit_hash_policy` are declared in a header that is
not part of the analysed sources; the spec lists the bonding mode set
`{ACTIVE_BACKUP, LAG_HASH(802.3ad)}` and the hash-policy set
`{LAYER2, LAYER2_3, LAYER3_4, ENCAP_2_3, ENCAP_3_4}` in that order, so the
ordinals below follow the spec's declaration order. -/

inductive bond_type where
  | ACTIVE_BACKUP
  | LAG_8023ad
deriving DecidableEq

inductive bond_xmit_hash_policy where
  | XHP_LAYER_2
  | XHP_LAYER_2_3
  | XHP_LAYER_3_4
  | XHP_ENCAP_2_3
  | XHP_ENCAP_3_4
deriving DecidableEq

/-- Modelled from the spec: ordinal value of the hash-policy enum, in the
declaration order given by the spec's data model (used by the source's
comparison `m_xmit_hash_policy > net_device_val::XHP_LAYER_2_3`). -/
def bond_xmit_hash_policy.val : bond_xmit_hash_policy → Nat
  | .XHP_LAYER_2 => 0
  | .XHP_LAYER_2_3 => 1
  | .XHP_LAYER_3_4 => 2
  | .XHP_ENCAP_2_3 => 3
  | .XHP_ENCAP_3_4 => 4

/-! ## `ring_bond::generate_id` (ring_bond.cpp lines 597-639)

MAC addresses are byte arrays (`address_t` is `uint8_t*`); the parameters
`eth_proto`, `encap_proto`, `src_port`, `dst_port` are `uint16_t` values in
network byte order and `src_ip`, `dst_ip` are `uint32_t`, so each argument
is reduced modulo its C type's width on entry. -/

def ring_bond.generate_id (m_type : bond_type)
    (m_xmit_hash_policy : bond_xmit_hash_policy) (m_n_num_resources : Nat)
    (src_mac dst_mac : List Nat) (eth_proto encap_proto : Nat)
    (src_ip dst_ip : Nat) (src_port dst_port : Nat) : Nat :=
  if m_type ≠ bond_type.LAG_8023ad then 0
  else
    let eth_proto := eth_proto % 65536
    let encap_proto := encap_proto % 65536
    let src_ip := src_ip % 4294967296
    let dst_ip := dst_ip % 4294967296
    let src_port := src_port % 65536
    let dst_port := dst_port % 65536
    let sm5 := src_mac.getD 5 0 % 256
    let dm5 := dst_mac.getD 5 0 % 256
    let eth_proto :=
      if m_xmit_hash_policy.val > bond_xmit_hash_policy.XHP_LAYER_2_3.val ∧
          eth_proto = htons ETH_P_8021Q
      then encap_proto else eth_proto
    if eth_proto ≠ htons ETH_P_IP then
      (dm5 ^^^ sm5 ^^^ eth_proto) % m_n_num_resources
    else
      match m_xmit_hash_policy with
      | .XHP_LAYER_2 =>
        (dm5 ^^^ sm5 ^^^ eth_proto) % m_n_num_resources
      | .XHP_LAYER_2_3 | .XHP_ENCAP_2_3 =>
        let hash := dm5 ^^^ sm5 ^^^ eth_proto
        let hash := hash ^^^ (dst_ip ^^^ src_ip)
        let hash := hash ^^^ (hash >>> 16)
        let hash := hash ^^^ (hash >>> 8)
        hash % m_n_num_resources
      | .XHP_LAYER_3_4 | .XHP_ENCAP_3_4 =>
        let hash := src_port ||| (dst_port <<< 16)
        let hash := hash ^^^ (dst_ip ^^^ src_ip)
        let hash := hash ^^^ (hash >>> 16)
        let hash := hash ^^^ (hash >>> 8)
        hash % m_n_num_resources

/-! ## `cq_mgr_mp::poll_mp_cq` (cq_mgr_mp.cpp lines 106-144) -/

def MP_RQ_BYTE_CNT_FIELD_MASK : Nat := 0x0000FFFF
def MP_RQ_NUM_STRIDES_FIELD_MASK : Nat := 0x7FFF0000
def MP_RQ_FILLER_FIELD_MASK : Nat := 0x80000000
def MP_RQ_NUM_STRIDES_FIELD_SHIFT : Nat := 16

/-- Modelled from the spec: the expected "responder send" completion
opcode (`MLX5_CQE_RESP_SEND` from the mlx5 driver header, not in the
analysed sources). -/
def MLX5_CQE_RESP_SEND : Nat := 2

/-- Modelled from the spec: the two header-checksum-ok bits of the CQE
`hds_ip_ext` field (`MLX5_CQE_L3_OK`, `MLX5_CQE_L4_OK`; driver header not
in the analysed sources — the model only needs them to be distinct bits). -/
def MLX5_CQE_L3_OK : Nat := 2
def MLX5_CQE_L4_OK : Nat := 4

/-- Modelled from the spec: the two checksum-validity completion flags and
the bad-packet flag of the VMA completion interface (`vma_extra.h` /
verbs headers, not in the analysed sources — the model only needs three
distinct bits). -/
def IBV_EXP_CQ_RX_IP_CSUM_OK : Nat := 1
def IBV_EXP_CQ_RX_TCP_UDP_CSUM_OK : Nat := 2
def VMA_MP_RQ_BAD_PACKET : Nat := 4

/-- `cq_mgr_mp::UDP_OK_FLAGS` (cq_mgr_mp.cpp lines 52-53). -/
def UDP_OK_FLAGS : Nat := IBV_EXP_CQ_RX_IP_CSUM_OK ||| IBV_EXP_CQ_RX_TCP_UDP_CSUM_OK

/-- The hardware completion record fields read by the decoder, each held
in network byte order exactly as the hardware writes them. -/
structure mlx5_cqe64 where
  op_own : Nat
  byte_cnt : Nat
  wqe_counter : Nat
  hds_ip_ext : Nat
  timestamp : Nat
deriving DecidableEq

/-- Modelled from the spec: `cq_mgr_mlx5::increment_hw_filds` (defined in
`cq_mgr_mlx5.inl`, not in the analysed sources) always advances the
internal consumption index. -/
def increment_hw_filds (consIndex : Nat) : Nat := consIndex + 1

/-- Result bundle of one `poll_mp_cq` call: the C++ return value plus the
final values of the by-reference parameters and of the consumption index. -/
structure PollOut where
  ret : Int
  size : Nat
  strides_used : Nat
  offset : Nat
  flags : Nat
  cqe : Option mlx5_cqe64
  consIndex : Nat
deriving DecidableEq

/-- `cq_mgr_mp::poll_mp_cq`. `cqe?` is the completion returned by
`check_cqe()` (`none` when the queue has no ready completion); `size0`,
`strides_used0`, `offset0`, `flags0` are the caller's by-reference
arguments; `powStrideSize` is `m_pow_stride_size` and `consIndex` is
`m_cq_cons_index`. -/
def cq_mgr_mp.poll_mp_cq (cqe? : Option mlx5_cqe64)
    (size0 strides_used0 offset0 flags0 : Nat)
    (powStrideSize consIndex : Nat) : PollOut :=
  match cqe? with
  | none =>
    { ret := 0, size := size0, strides_used := strides_used0,
      offset := offset0, flags := flags0, cqe := none, consIndex := consIndex }
  | some cqe =>
    if cqe.op_own >>> 4 ≠ MLX5_CQE_RESP_SEND then
      { ret := -1, size := size0, strides_used := strides_used0,
        offset := offset0, flags := flags0 ||| VMA_MP_RQ_BAD_PACKET,
        cqe := none, consIndex := consIndex }
    else
      let byte_strides := ntohl cqe.byte_cnt
      let strides_used := strides_used0 +
        ((byte_strides &&& MP_RQ_NUM_STRIDES_FIELD_MASK) >>> MP_RQ_NUM_STRIDES_FIELD_SHIFT)
      if byte_strides &&& MP_RQ_FILLER_FIELD_MASK = 0 then
        let size := byte_strides &&& MP_RQ_BYTE_CNT_FIELD_MASK
        let offset := ntohs cqe.wqe_counter * powStrideSize
        let flags :=
          (if cqe.hds_ip_ext &&& MLX5_CQE_L4_OK ≠ 0 then IBV_EXP_CQ_RX_TCP_UDP_CSUM_OK else 0) |||
          (if cqe.hds_ip_ext &&& MLX5_CQE_L3_OK ≠ 0 then IBV_EXP_CQ_RX_IP_CSUM_OK else 0)
        if flags ≠ UDP_OK_FLAGS then
          { ret := 0, size := 1, strides_used := strides_used, offset := offset,
            flags := flags ||| VMA_MP_RQ_BAD_PACKET, cqe := some cqe,
            consIndex := increment_hw_filds consIndex }
        else
          { ret := 0, size := size, strides_used := strides_used, offset := offset,
            flags := flags, cqe := some cqe,
            consIndex := increment_hw_filds consIndex }
      else
        { ret := 0, size := 1, strides_used := strides_used, offset := offset0,
          flags := VMA_MP_RQ_BAD_PACKET, cqe := some cqe,
          consIndex := increment_hw_filds consIndex }

/-! ## Index set of `ring_bond::reclaim_recv_buffers` (ring_bond.cpp 401-423)

`reclaim_recv_buffers` declares a local array
`descq_t buffer_per_ring[MAX_NUM_RING_RESOURCES]` and (directly and via
`devide_buffers_helper`) indexes it at every member index `0..n-1` and at
the overflow index `n = m_n_num_resources`. -/

/-- The constructor check `if (m_n_num_resources > MAX_NUM_RING_RESOURCES)
ring_logpanic(...)` in `ring_bond::ring_bond`: a member count passes the
hard cap iff it does not exceed 10. -/
def ring_bond.capCheckPasses (n : Nat) : Bool := decide (n ≤ MAX_NUM_RING_RESOURCES)

/-- Size of the local bucket array in `reclaim_recv_buffers`. -/
def ring_bond.reclaimArraySize : Nat := MAX_NUM_RING_RESOURCES

/-- All indices used into `buffer_per_ring` by `reclaim_recv_buffers` and
its queue-based `devide_buffers_helper`: the member buckets `0..n-1` and
the overflow bucket `n`. -/
def ring_bond.reclaimIndicesUsed (n : Nat) : List Nat := List.range n ++ [n]

/-! ## `ring_bond::close_gaps_active_rings` (ring_bond.cpp lines 549-575)

Member rings are identified by their slot number (the pointers
`m_bond_rings[i]` are distinct heap objects, so slot `i` is a faithful
identity). The active array `m_active_rings` is a list of nullable ring
identities. -/

/-- One step of the wrap-around index walk of the gap-closing loop:
`if (i == 0) i = n - 1; else i--;`. -/
def ring_bond.stepIdx (n i : Nat) : Nat := if i = 0 then n - 1 else i - 1

/-- The `while (checked < m_n_num_resources)` loop body of
`close_gaps_active_rings`: walk the index backwards (wrapping), keeping
the last non-null entry in `curr` and writing `curr` into null slots.
`s` is the number of slots still to check. -/
def ring_bond.closeGapsLoop {α : Type} (n : Nat) :
    Nat → Nat → α → List (Option α) → List (Option α)
  | 0, _, _, act => act
  | s + 1, i, curr, act =>
    let j := ring_bond.stepIdx n i
    match act.get? j with
    | some (some r) => ring_bond.closeGapsLoop n s j r act
    | _ => ring_bond.closeGapsLoop n s j curr (act.set j (some curr))

/-- The initial scan of `close_gaps_active_rings`: the first non-null
slot together with its value. -/
def ring_bond.firstActive {α : Type} : List (Option α) → Option (Nat × α)
  | [] => none
  | some r :: _ => some (0, r)
  | none :: rest => (ring_bond.firstActive rest).map (fun p => (p.1 + 1, p.2))

/-- `ring_bond::close_gaps_active_rings`: if no slot is active, return; else
propagate, scanning backwards with wrap-around from the first active slot
and checking the remaining `n - 1` slots. -/
def ring_bond.close_gaps_active_rings {α : Type} (act : List (Option α)) :
    List (Option α) :=
  match ring_bond.firstActive act with
  | none => act
  | some (i, r) =>
    ring_bond.closeGapsLoop act.length (act.length - 1) i r act

/-- The active-set assignment step of `ring_bond::restart` (and of
`create_slave_list`): slot `i` becomes `m_bond_rings[i]` when marked
active and null otherwise. -/
def ring_bond.assignActive (flags : List Bool) : List (Option Nat) :=
  (List.range flags.length).map (fun i => if flags.getD i false then some i else none)

/-- The active-set reconfiguration performed by `ring_bond::restart`
(ring_bond.cpp lines 121-180): per-member start/stop and active-slot
assignment followed by `close_gaps_active_rings()`. -/
def ring_bond.restartActive (flags : List Bool) : List (Option Nat) :=
  ring_bond.close_gaps_active_rings (ring_bond.assignActive flags)

/-! ## `ring_bond::attach_flow` / `detach_flow` (ring_bond.cpp lines 100-119)

A member ring's `attach_flow`/`detach_flow` behaviour is external
(`ring_simple`); it is modelled as an arbitrary per-member step function
`op : M → F → M × Bool` returning the member's new state and its boolean
result. The aggregator loop is the embedded code. -/

/-- The member loop shared by `ring_bond::attach_flow` and
`ring_bond::detach_flow`: invoke `op` on every member in index order,
accumulating `ret = ret && step_ret`, with no early exit and no rollback. -/
def ring_bond.flowFanout {M F : Type} (op : M → F → M × Bool) :
    List M → F → List M × Bool
  | [], _ => ([], true)
  | m :: rest, f =>
    let step := op m f
    let tail := ring_bond.flowFanout op rest f
    (step.1 :: tail.1, step.2 && tail.2)

/-- `ring_bond::attach_flow` (the flow tuple and sink are bundled in `f`). -/
def ring_bond.attach_flow {M F : Type} (op : M → F → M × Bool)
    (rings : List M) (f : F) : List M × Bool :=
  ring_bond.flowFanout op rings f

/-- `ring_bond::detach_flow` (same loop shape as `attach_flow`). -/
def ring_bond.detach_flow {M F : Type} (op : M → F → M × Bool)
    (rings : List M) (f : F) : List M × Bool :=
  ring_bond.flowFanout op rings f

/-! ## RX polling loops (ring_bond.cpp lines 284-359)

`poll_and_process_element_rx`, `drain_and_proccess` and
`wait_for_notification_and_process_element` share the same body once the
RX lock is held: a pre-step polling the tap path, then a loop over the
members that are up. Each member `i` is modelled by the pair
`(is_up, result)` of its up-status and the value its poll call returns. -/

/-- The member loop of the three RX polling operations: `temp` receives
each attempted member's result and `ret` accumulates positive results.
Returns the final `(ret, temp)`. -/
def ring_bond.rxLoop (tap : Int) (members : List (Bool × Int)) : Int × Int :=
  members.foldl
    (fun p m =>
      if m.1 then (if m.2 > 0 then (p.1 + m.2, m.2) else (p.1, m.2)) else p)
    (tap, 0)

/-- `ring_bond::poll_and_process_element_rx` after the trylock: the tap
pre-step result seeds `ret`; returns `ret` when positive, else the last
attempted member result `temp`. -/
def ring_bond.poll_and_process_element_rx (tap : Int)
    (members : List (Bool × Int)) : Int :=
  let p := ring_bond.rxLoop tap members
  if p.1 > 0 then p.1 else p.2

/-- `ring_bond::drain_and_proccess` after the trylock (same accumulation). -/
def ring_bond.drain_and_proccess (tap : Int)
    (members : List (Bool × Int)) : Int :=
  let p := ring_bond.rxLoop tap members
  if p.1 > 0 then p.1 else p.2

/-- `ring_bond::wait_for_notification_and_process_element` after the
trylock (same accumulation). -/
def ring_bond.wait_for_notification_and_process_element (tap : Int)
    (members : List (Bool × Int)) : Int :=
  let p := ring_bond.rxLoop tap members
  if p.1 > 0 then p.1 else p.2

/-! ## Buffer descriptors and ownership routing (ring_bond.cpp 425-487)

A buffer descriptor carries its owning ring (`p_desc_owner`, the identity
of the `ring_simple` that produced it) and a chain link (`p_next_desc`).
Chains of buffers are modelled as Lean lists in chain order, so the
splice bookkeeping on `p_next_desc` is implicit in the list structure. -/

structure mem_buf_desc_t where
  owner : Nat
  p_next_desc : Option Nat
deriving DecidableEq

/-- The owner probe of the queue-shape `devide_buffers_helper`: starting
from `last_found_index`, probe member indices with wrap-around until a
ring equal to the buffer's owner is found or all `m_n_num_resources`
members were checked. `fuel` is the number of members still to check.
(The chain-shape helper's plain `for (i = 0; i < n; i++)` owner scan is
the same probe started at index 0: both return the first matching index
in the order scanned, or none after `n` checks.) -/
def ring_bond.findOwnerAux (rings : List Nat) (owner : Nat) :
    Nat → Nat → Option Nat
  | 0, _ => none
  | fuel + 1, index =>
    if rings.get? index = some owner then some index
    else ring_bond.findOwnerAux rings owner fuel ((index + 1) % rings.length)

/-- `ring_bond::devide_buffers_helper(descq_t*, descq_t*)` (lines 425-448):
pop buffers from the front of `rx_reuse`, pushing each to the bucket of
its owning member (probe starting at the last matched index) or, when no
member owns it, to the overflow bucket at index `m_n_num_resources`.
`acc` is the caller's bucket array, `hint` is `last_found_index`. -/
def ring_bond.devide_buffers_helper_q (rings : List Nat) :
    List mem_buf_desc_t → List (List mem_buf_desc_t) → Nat →
    List (List mem_buf_desc_t)
  | [], acc, _ => acc
  | b :: rest, acc, hint =>
    match ring_bond.findOwnerAux rings b.owner rings.length hint with
    | some i =>
      ring_bond.devide_buffers_helper_q rings rest
        (acc.set i (acc.getD i [] ++ [b])) i
    | none =>
      ring_bond.devide_buffers_helper_q rings rest
        (acc.set rings.length (acc.getD rings.length [] ++ [b])) hint

/-- The bucket array produced inside `ring_bond::reclaim_recv_buffers`:
`m_n_num_resources + 1` buckets (member buckets plus the overflow bucket),
all initially empty, `last_found_index` initially 0. -/
def ring_bond.reclaimBuckets (rings : List Nat) (input : List mem_buf_desc_t) :
    List (List mem_buf_desc_t) :=
  ring_bond.devide_buffers_helper_q rings input
    (List.replicate (rings.length + 1) []) 0

/-- `ring_bond::devide_buffers_helper(mem_buf_desc_t*, mem_buf_desc_t**)`
(lines 450-487): walk the chain, run-length compressing contiguous runs
that share one owner; splice each run onto its owning member's chain, or
hand the run directly to the global TX pool when no member owns it.
Returns the per-member chains and the list handed to the pool. -/
def ring_bond.devide_buffers_helper_chain (rings : List Nat) :
    List mem_buf_desc_t → List (List mem_buf_desc_t) →
    List (List mem_buf_desc_t) × List mem_buf_desc_t
  | [], acc => (acc, [])
  | b :: rest, acc =>
    let run := b :: rest.takeWhile (fun x => x.owner = b.owner)
    let rest2 := rest.dropWhile (fun x => x.owner = b.owner)
    match ring_bond.findOwnerAux rings b.owner rings.length 0 with
    | some i =>
      ring_bond.devide_buffers_helper_chain rings rest2
        (acc.set i (acc.getD i [] ++ run))
    | none =>
      let res := ring_bond.devide_buffers_helper_chain rings rest2 acc
      (res.1, run ++ res.2)
termination_by l _ => l.length
decreasing_by
  all_goals
    simp only [List.length_cons]
    have h := (List.dropWhile_suffix (l := rest)
      (fun x => x.owner = b.owner)).length_le
    omega

/-- The routing performed by `ring_bond::mem_buf_tx_release` (lines
202-213): split the chain with the chain-shape `devide_buffers_helper`
over a fresh `m_n_num_resources`-slot array. -/
def ring_bond.mem_buf_tx_release_route (rings : List Nat)
    (chain : List mem_buf_desc_t) :
    List (List mem_buf_desc_t) × List mem_buf_desc_t :=
  ring_bond.devide_buffers_helper_chain rings chain
    (List.replicate rings.length [])

/-! ## `ring_bond::send_ring_buffer` (ring_bond.cpp lines 226-243) -/

/-- The observable outcome of one `send_ring_buffer` call: the buffer is
either handed to a member ring's hardware send, released to a member
ring's TX pool, or released through the bond-level ownership routing. -/
inductive TxOutcome where
  | sentToHW (ring : Nat) (buf : mem_buf_desc_t)
  | releasedToRing (ring : Nat) (buf : mem_buf_desc_t)
  | releasedViaRouting (buf : mem_buf_desc_t)
deriving DecidableEq

/-- `ring_bond::send_ring_buffer`: `active` is `m_active_rings`, `bond` is
`m_bond_rings`, `buf` is the descriptor behind `p_send_wqe->wr_id`. -/
def ring_bond.send_ring_buffer (active : List (Option Nat)) (bond : List Nat)
    (id : Nat) (buf : mem_buf_desc_t) : TxOutcome :=
  let active_ring := active.getD id none
  if active_ring = some buf.owner then
    TxOutcome.sentToHW buf.owner buf
  else
    let b := { buf with p_next_desc := none }
    let active_ring2 := bond.getD id 0
    if b.owner = active_ring2 then TxOutcome.releasedToRing active_ring2 b
    else TxOutcome.releasedViaRouting b

/-! ## `ring_eth_cb` cyclic-buffer consumer (ring_eth_cb.cpp 165-287)

The consumer state bundles the accumulation fields of `ring_eth_cb`
together with the receive CQ contents (`cq_records`: the completions
`check_cqe()` will hand out, in order) and the CQ consumption index. -/

/-- Modelled from the spec: the completion capability-mask bits
`VMA_MP_MASK_TIMESTAMP` / `VMA_MP_MASK_HDR_PTR` of `vma_extra.h` (not in
the analysed sources — only needed as two distinct bits). -/
def VMA_MP_MASK_TIMESTAMP : Nat := 1
def VMA_MP_MASK_HDR_PTR : Nat := 2

structure vma_completion_mp where
  payload_ptr : Option Nat
  payload_length : Nat
  packets : Nat
  headers_ptr : Option Nat
  headers_ptr_length : Nat
  hw_timestamp : Nat
deriving DecidableEq

structure ring_eth_cb_state where
  m_stride_counter : Nat
  m_curr_wq : Nat
  m_curr_d_addr : Option Nat
  m_curr_h_ptr : Option Nat
  m_curr_packets : Nat
  m_curr_size : Nat
  m_curr_hw_timestamp : Nat
  m_wq_count : Nat
  m_pow_strides_num : Nat
  m_pow_stride_size : Nat
  sg_addr : Nat → Nat
  cq_records : List mlx5_cqe64
  cq_cons_index : Nat

/-- `ring_eth_cb::reload_wq` (lines 282-287): repost the current work
queue (external side effect on the QP), advance to the next work queue
modulo `m_wq_count`, reset the stride counter. -/
def ring_eth_cb.reload_wq (s : ring_eth_cb_state) : ring_eth_cb_state :=
  { s with m_curr_wq := (s.m_curr_wq + 1) % s.m_wq_count,
           m_stride_counter := 0 }

/-- `ring_eth_cb::mp_loop` (lines 246-280): repeatedly decode records into
the pending completion until `limit` packets are accumulated; returns the
C++ return code (0 empty, 1 done looping, 2 stop due to WQ end / bad
record) and the final state. -/
def ring_eth_cb.mp_loop (limit : Nat) (s : ring_eth_cb_state) :
    Nat × ring_eth_cb_state :=
  if s.m_curr_packets < limit then
    match hrec : s.cq_records with
    | [] => (0, s)
    | c :: rest =>
      let r := cq_mgr_mp.poll_mp_cq (some c) 0 s.m_stride_counter 0 0
                 s.m_pow_stride_size s.cq_cons_index
      if r.ret = -1 then (2, { s with m_stride_counter := r.strides_used })
      else
        let s1 := { s with m_stride_counter := r.strides_used,
                           cq_cons_index := r.consIndex,
                           cq_records := rest }
        if r.size = 0 then (0, s1)
        else if r.flags &&& VMA_MP_RQ_BAD_PACKET ≠ 0 then
          (2, if s1.m_stride_counter ≥ s1.m_pow_strides_num
              then ring_eth_cb.reload_wq s1 else s1)
        else
          let s2 := { s1 with m_curr_size := s1.m_curr_size + r.size,
                              m_curr_packets := s1.m_curr_packets + 1 }
          if s2.m_stride_counter ≥ s2.m_pow_strides_num then
            (2, ring_eth_cb.reload_wq s2)
          else ring_eth_cb.mp_loop limit s2
  else (1, s)
termination_by s.cq_records.length
decreasing_by
  simp only [hrec, List.length_cons]
  omega

/-- The completion filled in at the emit point of `cyclic_buffer_read`
(lines 222-229), read from the accumulated state. -/
def ring_eth_cb.emitCompletion (compMask : Nat) (s : ring_eth_cb_state) :
    vma_completion_mp :=
  { payload_ptr := s.m_curr_d_addr,
    payload_length := s.m_curr_size,
    packets := s.m_curr_packets,
    headers_ptr :=
      if compMask &&& VMA_MP_MASK_HDR_PTR ≠ 0 then s.m_curr_h_ptr else none,
    headers_ptr_length :=
      if compMask &&& VMA_MP_MASK_HDR_PTR ≠ 0 then s.m_curr_size else 0,
    hw_timestamp := s.m_curr_hw_timestamp }

/-- The decode performed at the top of `cyclic_buffer_read` (lines
184-185): one `poll_mp_cq` call on the next ready completion, with
`size = 0`, `strides_used = m_stride_counter`, `offset = 0`,
`p_flags = 0` as the by-reference arguments. -/
def ring_eth_cb.pollOnce (s : ring_eth_cb_state) (c : mlx5_cqe64) : PollOut :=
  cq_mgr_mp.poll_mp_cq (some c) 0 s.m_stride_counter 0 0
    s.m_pow_stride_size s.cq_cons_index

/-- The decoder bookkeeping of that call on the consumer state: the
stride counter takes the decoder's running total, the consumption index
advances and the record is consumed — except on a decode error (-1),
which leaves all of them untouched. -/
def ring_eth_cb.consume (s : ring_eth_cb_state) (c : mlx5_cqe64)
    (rest : List mlx5_cqe64) : ring_eth_cb_state :=
  if (ring_eth_cb.pollOnce s c).ret = -1 then s
  else { s with m_stride_counter := (ring_eth_cb.pollOnce s c).strides_used,
                cq_cons_index := (ring_eth_cb.pollOnce s c).consIndex,
                cq_records := rest }

/-- The accumulation step of `cyclic_buffer_read` (lines 196-209): seed
the pending completion from this record when the accumulation is empty
(`m_curr_d_addr == 0`), else fold the record into the counters. -/
def ring_eth_cb.seedOrAccum (compMask : Nat) (c : mlx5_cqe64) (r : PollOut)
    (s1 : ring_eth_cb_state) : ring_eth_cb_state :=
  if s1.m_curr_d_addr = none then
    { s1 with m_curr_d_addr := some (s1.sg_addr s1.m_curr_wq + r.offset),
              m_curr_hw_timestamp :=
                if compMask &&& VMA_MP_MASK_TIMESTAMP ≠ 0
                then ntohll c.timestamp else s1.m_curr_hw_timestamp,
              m_curr_h_ptr := some (s1.sg_addr s1.m_curr_wq + r.offset),
              m_curr_packets := 1,
              m_curr_size := r.size }
  else { s1 with m_curr_packets := s1.m_curr_packets + 1,
                 m_curr_size := s1.m_curr_size + r.size }

/-- The emit point of `cyclic_buffer_read` (lines 222-235): fill the
caller's completion from the accumulated state, clear the accumulation
discriminator `m_curr_d_addr`, and return 0. -/
def ring_eth_cb.emitNow (compMask : Nat) (t : ring_eth_cb_state) :
    Int × Option vma_completion_mp × ring_eth_cb_state :=
  (0, some (ring_eth_cb.emitCompletion compMask t),
   { t with m_curr_d_addr := none })

/-- `ring_eth_cb::cyclic_buffer_read` (lines 165-236). Returns the C++
return value, the completion written to the caller (none when the call
returns before the fill at lines 222-229), and the final state. -/
def ring_eth_cb.cyclic_buffer_read (s : ring_eth_cb_state) (compMask : Nat)
    (min max : Nat) (flags : Int) :
    Int × Option vma_completion_mp × ring_eth_cb_state :=
  if min > max ∨ max = 0 ∨ flags ≠ MSG_DONTWAIT then (-1, none, s)
  else
    match s.cq_records with
    | [] => (0, none, s)
    | c :: rest =>
      if (ring_eth_cb.pollOnce s c).size = 0 then
        (0, none, ring_eth_cb.consume s c rest)
      else if (ring_eth_cb.pollOnce s c).ret = -1 then
        (-1, none, ring_eth_cb.consume s c rest)
      else if (ring_eth_cb.pollOnce s c).flags &&& VMA_MP_RQ_BAD_PACKET = 0 then
        if (ring_eth_cb.seedOrAccum compMask c (ring_eth_cb.pollOnce s c)
              (ring_eth_cb.consume s c rest)).m_stride_counter ≥
            (ring_eth_cb.seedOrAccum compMask c (ring_eth_cb.pollOnce s c)
              (ring_eth_cb.consume s c rest)).m_pow_strides_num then
          ring_eth_cb.emitNow compMask
            (ring_eth_cb.reload_wq
              (ring_eth_cb.seedOrAccum compMask c (ring_eth_cb.pollOnce s c)
                (ring_eth_cb.consume s c rest)))
        else
          if (ring_eth_cb.mp_loop min
                (ring_eth_cb.seedOrAccum compMask c (ring_eth_cb.pollOnce s c)
                  (ring_eth_cb.consume s c rest))).1 = 1 then
            ring_eth_cb.emitNow compMask
              (ring_eth_cb.mp_loop max
                (ring_eth_cb.mp_loop min
                  (ring_eth_cb.seedOrAccum compMask c
                    (ring_eth_cb.pollOnce s c)
                    (ring_eth_cb.consume s c rest))).2).2
          else if (ring_eth_cb.mp_loop min
                (ring_eth_cb.seedOrAccum compMask c (ring_eth_cb.pollOnce s c)
                  (ring_eth_cb.consume s c rest))).1 = 0 then
            (0, none,
             (ring_eth_cb.mp_loop min
               (ring_eth_cb.seedOrAccum compMask c (ring_eth_cb.pollOnce s c)
                 (ring_eth_cb.consume s c rest))).2)
          else
            ring_eth_cb.emitNow compMask
              (ring_eth_cb.mp_loop min
                (ring_eth_cb.seedOrAccum compMask c (ring_eth_cb.pollOnce s c)
                  (ring_eth_cb.consume s c rest))).2
      else
        ring_eth_cb.emitNow compMask (ring_eth_cb.consume s c rest)

/-! ## Helper definitions used only by the statements and proofs below -/

/-- Slot `k` of a nullable-pointer array holds a non-null entry. -/
def SomeAt {α : Type} (act : List (Option α)) (k : Nat) : Prop :=
  ∃ x, act.get? k = some (some x)

/-- Backward cyclic distance from `i` to `k` modulo `n` (the number of
steps of the gap-closing walk needed to reach `k` from `i`). -/
def backDist (n i k : Nat) : Nat := (i + n - k) % n

/-- Total number of buffers across a bucket array. -/
def sumLens {α : Type} (l : List (List α)) : Nat := (l.map List.length).sum

/-- A freshly constructed consumer state (the constructor initial values
of `ring_eth_cb`, lines 53-58: zero counters, null pointers) holding a
single filler completion record in its CQ. -/
def C5_fresh_state : ring_eth_cb_state :=
  { m_stride_counter := 0, m_curr_wq := 0, m_curr_d_addr := none,
    m_curr_h_ptr := none, m_curr_packets := 0, m_curr_size := 0,
    m_curr_hw_timestamp := 0, m_wq_count := 2, m_pow_strides_num := 1024,
    m_pow_stride_size := 64, sg_addr := fun _ => 4096,
    cq_records := [⟨32, 128, 0, 0, 0⟩], cq_cons_index := 0 }

/-! # Theorems -/

/-! ## C4: the decoder on a filler record -/

/-- C4: for every completion record whose filler bit (bit 31 of the
byte-count field after network-to-host conversion) is set and whose
opcode is the expected responder-send opcode, `poll_mp_cq` returns the
non-zero sentinel size 1, sets exactly the bad-packet flag, returns 0,
advances the consumption index, and adds the record's stride-count field
to the running stride total — regardless of the record's byte-count and
stride-count fields and of the caller's arguments. -/
theorem C4_poll_mp_cq_filler (cqe : mlx5_cqe64)
    (size0 strides0 offset0 flags0 pss ci : Nat)
    (hop : cqe.op_own >>> 4 = MLX5_CQE_RESP_SEND)
    (hfill : ntohl cqe.byte_cnt &&& MP_RQ_FILLER_FIELD_MASK ≠ 0) :
    (cq_mgr_mp.poll_mp_cq (some cqe) size0 strides0 offset0 flags0 pss ci).size = 1 ∧
    (cq_mgr_mp.poll_mp_cq (some cqe) size0 strides0 offset0 flags0 pss ci).flags =
      VMA_MP_RQ_BAD_PACKET ∧
    (cq_mgr_mp.poll_mp_cq (some cqe) size0 strides0 offset0 flags0 pss ci).consIndex =
      ci + 1 ∧
    (cq_mgr_mp.poll_mp_cq (some cqe) size0 strides0 offset0 flags0 pss ci).ret = 0 ∧
    (cq_mgr_mp.poll_mp_cq (some cqe) size0 strides0 offset0 flags0 pss ci).strides_used =
      strides0 + ((ntohl cqe.byte_cnt &&& MP_RQ_NUM_STRIDES_FIELD_MASK) >>>
        MP_RQ_NUM_STRIDES_FIELD_SHIFT) := by
  simp [cq_mgr_mp.poll_mp_cq, hop, hfill, increment_hw_filds]

/-- Witness for C4 at a concrete filler record (`op_own = 0x20`,
`byte_cnt = 0x80` whose `ntohl` image is `0x80000000`). -/
theorem C4_poll_mp_cq_filler_witness :
    (cq_mgr_mp.poll_mp_cq (some ⟨32, 128, 0, 0, 0⟩) 0 0 0 0 4 7).size = 1 ∧
    (cq_mgr_mp.poll_mp_cq (some ⟨32, 128, 0, 0, 0⟩) 0 0 0 0 4 7).flags =
      VMA_MP_RQ_BAD_PACKET ∧
    (cq_mgr_mp.poll_mp_cq (some ⟨32, 128, 0, 0, 0⟩) 0 0 0 0 4 7).consIndex = 7 + 1 ∧
    (cq_mgr_mp.poll_mp_cq (some ⟨32, 128, 0, 0, 0⟩) 0 0 0 0 4 7).ret = 0 ∧
    (cq_mgr_mp.poll_mp_cq (some ⟨32, 128, 0, 0, 0⟩) 0 0 0 0 4 7).strides_used =
      0 + ((ntohl (128 : Nat) &&& MP_RQ_NUM_STRIDES_FIELD_MASK) >>>
        MP_RQ_NUM_STRIDES_FIELD_SHIFT) :=
  C4_poll_mp_cq_filler ⟨32, 128, 0, 0, 0⟩ 0 0 0 0 4 7 (by decide) (by decide)

/-! ## C6: `generate_id` mode gating and range -/

/-- C6: `generate_id` returns 0 whenever the bonding mode is not
LAG_HASH (802.3ad); and in LAG_HASH mode, for every hash policy, it is a
pure function of its arguments (it is a Lean `def`) whose result lies in
`[0, N)` whenever the member count `N` is positive. -/
theorem C6_generate_id_mode_and_range (mt : bond_type)
    (pol : bond_xmit_hash_policy) (n : Nat) (smac dmac : List Nat)
    (ep encp sip dip spt dpt : Nat) :
    (mt ≠ bond_type.LAG_8023ad →
      ring_bond.generate_id mt pol n smac dmac ep encp sip dip spt dpt = 0) ∧
    (0 < n →
      ring_bond.generate_id mt pol n smac dmac ep encp sip dip spt dpt < n) := by
  constructor
  · intro h
    simp [ring_bond.generate_id, h]
  · intro hn
    cases mt
    · simpa [ring_bond.generate_id] using hn
    · cases pol <;>
        simp only [ring_bond.generate_id, ne_eq, not_true_eq_false, if_false,
          ite_not] <;>
        split <;>
        first
          | exact Nat.mod_lt _ hn
          | (split <;> exact Nat.mod_lt _ hn)

/-- Witness for C6: a non-LAG bond always selects id 0, and a concrete
LAG_HASH LAYER3_4 input yields an id below the member count 3. -/
theorem C6_generate_id_witness :
    ring_bond.generate_id bond_type.ACTIVE_BACKUP
      bond_xmit_hash_policy.XHP_LAYER_2 3 [] [] 0 0 0 0 0 0 = 0 ∧
    ring_bond.generate_id bond_type.LAG_8023ad
      bond_xmit_hash_policy.XHP_LAYER_3_4 3 [1, 2, 3, 4, 5, 6]
      [7, 8, 9, 10, 11, 12] 8 0 123456 654321 99 1000 < 3 :=
  ⟨(C6_generate_id_mode_and_range bond_type.ACTIVE_BACKUP
      bond_xmit_hash_policy.XHP_LAYER_2 3 [] [] 0 0 0 0 0 0).1 (by decide),
   (C6_generate_id_mode_and_range bond_type.LAG_8023ad
      bond_xmit_hash_policy.XHP_LAYER_3_4 3 [1, 2, 3, 4, 5, 6]
      [7, 8, 9, 10, 11, 12] 8 0 123456 654321 99 1000).2 (by decide)⟩

/-! ## C8: 802.1Q encapsulated-ethertype substitution -/

/-- C8 counterexample: the claim says the substitution happens for every
policy other than LAYER2, but the source condition is
`m_xmit_hash_policy > XHP_LAYER_2_3`, which excludes `XHP_LAYER_2_3`
itself. For policy `XHP_LAYER_2_3` (which is not `XHP_LAYER_2`) and a
tagged frame carrying an encapsulated IP ethertype, the computed id is
not the id of the substituted frame: the substitution did not happen. -/
theorem C8_counterexample :
    bond_xmit_hash_policy.XHP_LAYER_2_3 ≠ bond_xmit_hash_policy.XHP_LAYER_2 ∧
    ring_bond.generate_id bond_type.LAG_8023ad
      bond_xmit_hash_policy.XHP_LAYER_2_3 3 [0, 0, 0, 0, 0, 0]
      [0, 0, 0, 0, 0, 0] (htons ETH_P_8021Q) (htons ETH_P_IP) 0 0 0 0 ≠
    ring_bond.generate_id bond_type.LAG_8023ad
      bond_xmit_hash_policy.XHP_LAYER_2_3 3 [0, 0, 0, 0, 0, 0]
      [0, 0, 0, 0, 0, 0] (htons ETH_P_IP) (htons ETH_P_IP) 0 0 0 0 :=
  ⟨by decide, by decide⟩

/-- C8 (amended): in LAG_HASH mode, for every 802.1Q-tagged frame and
every hash policy strictly above `XHP_LAYER_2_3` in the enum order
(`LAYER3_4`, `ENCAP_2_3`, `ENCAP_3_4`), `generate_id` substitutes the
encapsulated ethertype for the outer ethertype before hashing: the id
equals the id computed for the frame with the encapsulated ethertype. -/
theorem C8_encap_substitution_above_layer_2_3 (pol : bond_xmit_hash_policy)
    (hpol : bond_xmit_hash_policy.XHP_LAYER_2_3.val < pol.val)
    (n : Nat) (smac dmac : List Nat) (encp sip dip spt dpt : Nat)
    (ep : Nat) (htag : ep % 65536 = htons ETH_P_8021Q) :
    ring_bond.generate_id bond_type.LAG_8023ad pol n smac dmac
      ep encp sip dip spt dpt =
    ring_bond.generate_id bond_type.LAG_8023ad pol n smac dmac
      encp encp sip dip spt dpt := by
  by_cases hc : encp % 65536 = htons ETH_P_8021Q
  · simp [ring_bond.generate_id, htag, hc, hpol]
  · simp [ring_bond.generate_id, htag, hc, hpol]

/-- Witness for C8 (amended) at a concrete tagged LAYER3_4 frame. -/
theorem C8_encap_substitution_witness :
    ring_bond.generate_id bond_type.LAG_8023ad
      bond_xmit_hash_policy.XHP_LAYER_3_4 3 [0, 0, 0, 0, 0, 1]
      [0, 0, 0, 0, 0, 2] (htons ETH_P_8021Q) (htons ETH_P_IP) 7 9 11 13 =
    ring_bond.generate_id bond_type.LAG_8023ad
      bond_xmit_hash_policy.XHP_LAYER_3_4 3 [0, 0, 0, 0, 0, 1]
      [0, 0, 0, 0, 0, 2] (htons ETH_P_IP) (htons ETH_P_IP) 7 9 11 13 :=
  C8_encap_substitution_above_layer_2_3 bond_xmit_hash_policy.XHP_LAYER_3_4
    (by decide) 3 [0, 0, 0, 0, 0, 1] [0, 0, 0, 0, 0, 2] (htons ETH_P_IP)
    7 9 11 13 (htons ETH_P_8021Q) (by decide)

/-! ## C10: bucket-array bounds in `reclaim_recv_buffers` -/

/-- C10: the constructor's hard-cap check admits `N = 10`
(`m_n_num_resources > MAX_NUM_RING_RESOURCES` only panics above 10), yet
`reclaim_recv_buffers` indexes its 10-element local array
`buffer_per_ring[MAX_NUM_RING_RESOURCES]` at the overflow index
`m_n_num_resources = 10`, which is out of bounds; for every smaller
member count (`N < 10`, which covers `N` in `[1,9]`) every index used,
including the overflow index `N`, is in bounds. -/
theorem C10_reclaim_overflow_bounds :
    ring_bond.capCheckPasses 10 = true ∧
    10 ∈ ring_bond.reclaimIndicesUsed 10 ∧
    ((ring_bond.reclaimIndicesUsed 10).all
      (fun i => decide (i < ring_bond.reclaimArraySize))) = false ∧
    ((List.range MAX_NUM_RING_RESOURCES).map ring_bond.reclaimIndicesUsed).all
      (fun idxs => idxs.all (fun i => decide (i < ring_bond.reclaimArraySize)))
      = true := by
  decide

/-! ## C2: flow attach/detach fan-out -/

/-- The fan-out loop applies the member operation to every member in
index order and ANDs the member results. -/
theorem ring_bond.flowFanout_eq {M F : Type} (op : M → F → M × Bool)
    (f : F) :
    ∀ rings : List M,
      ring_bond.flowFanout op rings f =
        (rings.map (fun m => (op m f).1), rings.all (fun m => (op m f).2)) := by
  intro rings
  induction rings with
  | nil => rfl
  | cons m rest ih => simp [ring_bond.flowFanout, ih]

/-- C2: `attach_flow` (and `detach_flow`) invoke the member operation on
every member in index order — each member's final state is the result of
applying the operation to it exactly once, independent of the other
members' results (so a member whose call succeeded keeps its
registration; there is no rollback) — and the aggregate returns true iff
every member's call returned true. -/
theorem C2_attach_detach_fanout {M F : Type} (op : M → F → M × Bool)
    (rings : List M) (f : F) :
    (ring_bond.attach_flow op rings f).1 =
      rings.map (fun m => (op m f).1) ∧
    ((ring_bond.attach_flow op rings f).2 = true ↔
      ∀ m ∈ rings, (op m f).2 = true) ∧
    (ring_bond.detach_flow op rings f).1 =
      rings.map (fun m => (op m f).1) ∧
    ((ring_bond.detach_flow op rings f).2 = true ↔
      ∀ m ∈ rings, (op m f).2 = true) := by
  refine ⟨?_, ?_, ?_, ?_⟩ <;>
    simp [ring_bond.attach_flow, ring_bond.detach_flow,
      ring_bond.flowFanout_eq, List.all_eq_true]

/-! ## C9: RX polling accumulation -/

/-- `getLast?` over a cons defaults to the head when the tail is empty. -/
theorem getLastD_cons {α : Type} :
    ∀ (l : List α) (x t : α), ((x :: l).getLast?).getD t = (l.getLast?).getD x := by
  intro l
  induction l with
  | nil => intro x t; rfl
  | cons y ys ih =>
    intro x t
    rw [List.getLast?_cons_cons, ih y t, ih y x]

/-- Characterization of the shared RX member loop: starting from
`(a, t)`, the accumulator ends at `a` plus the sum of the positive
results of the up members, and `temp` ends at the last up member's
result (or `t` when no member is up). -/
theorem ring_bond.rxLoop_foldl (members : List (Bool × Int)) :
    ∀ a t : Int,
      members.foldl
        (fun p m =>
          if m.1 then (if m.2 > 0 then (p.1 + m.2, m.2) else (p.1, m.2)) else p)
        (a, t) =
      (a + (((members.filter (fun m => m.1)).map (fun m => m.2)).filter
              (fun r => r > 0)).sum,
       (((members.filter (fun m => m.1)).map (fun m => m.2)).getLast?).getD t) := by
  induction members with
  | nil => intro a t; simp
  | cons m rest ih =>
    intro a t
    rcases m with ⟨up, r⟩
    cases up
    · simpa using ih a t
    · by_cases hr : r > 0
      · simp [List.foldl_cons, hr, ih (a + r) r, getLastD_cons, add_assoc]
      · simp [List.foldl_cons, hr, ih a r, getLastD_cons]

/-- C9: each of the three RX polling operations iterates only the up
members; when the sum of the tap pre-step result and the positive member
results is positive it returns that sum, and otherwise it returns
verbatim the most recently attempted member's result (0 when no member
is up). -/
theorem C9_rx_polling_accumulation (tap : Int) (members : List (Bool × Int)) :
    ring_bond.poll_and_process_element_rx tap members =
      (if tap + (((members.filter (fun m => m.1)).map (fun m => m.2)).filter
            (fun r => r > 0)).sum > 0
       then tap + (((members.filter (fun m => m.1)).map (fun m => m.2)).filter
            (fun r => r > 0)).sum
       else (((members.filter (fun m => m.1)).map (fun m => m.2)).getLast?).getD 0) ∧
    ring_bond.drain_and_proccess tap members =
      ring_bond.poll_and_process_element_rx tap members ∧
    ring_bond.wait_for_notification_and_process_element tap members =
      ring_bond.poll_and_process_element_rx tap members := by
  refine ⟨?_, rfl, rfl⟩
  simp [ring_bond.poll_and_process_element_rx, ring_bond.rxLoop,
    ring_bond.rxLoop_foldl]

/-! ## C1: the gap-closing invariant -/

/-- For a numerator below `2 * n`, reduction modulo `n` subtracts `n` at
most once. -/
theorem mod_two_cases (a n : Nat) (h : a < 2 * n) :
    a % n = if a < n then a else a - n := by
  split
  · exact Nat.mod_eq_of_lt (by assumption)
  · rw [Nat.mod_eq_sub_mod (by omega), Nat.mod_eq_of_lt (by omega)]

/-- The backward cyclic distance is zero exactly between equal indices. -/
theorem backDist_eq_zero_iff (n i k : Nat) (hi : i < n) (hk : k < n) :
    backDist n i k = 0 ↔ i = k := by
  unfold backDist
  rw [mod_two_cases _ n (by omega)]
  split <;> omega

/-- Distance one lands exactly on the next slot of the backward walk. -/
theorem backDist_one (n i k : Nat) (hi : i < n) (hk : k < n)
    (h1 : backDist n i k = 1) : k = ring_bond.stepIdx n i := by
  unfold backDist at h1
  rw [mod_two_cases _ n (by omega)] at h1
  unfold ring_bond.stepIdx
  split at h1 <;> split <;> omega

/-- One step of the backward walk decrements the backward distance. -/
theorem backDist_step (n i k : Nat) (hi : i < n) (hk : k < n)
    (h2 : 2 ≤ backDist n i k) :
    backDist n (ring_bond.stepIdx n i) k = backDist n i k - 1 := by
  unfold backDist at h2 ⊢
  unfold ring_bond.stepIdx
  rw [mod_two_cases (i + n - k) n (by omega)] at h2 ⊢
  by_cases h0 : i = 0
  · rw [if_pos h0]
    rw [mod_two_cases (n - 1 + n - k) n (by omega)]
    rcases Nat.lt_or_ge (i + n - k) n with hB | hB
    · rw [if_pos hB] at h2 ⊢
      split <;> omega
    · rw [if_neg (by omega)] at h2 ⊢
      split <;> omega
  · rw [if_neg h0]
    rw [mod_two_cases (i - 1 + n - k) n (by omega)]
    rcases Nat.lt_or_ge (i + n - k) n with hB | hB
    · rw [if_pos hB] at h2 ⊢
      split <;> omega
    · rw [if_neg (by omega)] at h2 ⊢
      split <;> omega

/-- A successful `get?` implies the index is within bounds. -/
theorem get?_lt_of_some {α : Type} :
    ∀ (l : List α) (k : Nat) (x : α), l.get? k = some x → k < l.length := by
  intro l
  induction l with
  | nil => intro k x h; cases h
  | cons a as ih =>
    intro k x h
    cases k with
    | zero => simp
    | succ m =>
      have := ih m x (by simpa using h)
      simpa using Nat.succ_lt_succ this

/-- Writing a non-null entry anywhere preserves non-nullness of a slot. -/
theorem SomeAt_set {α : Type} (act : List (Option α)) (j k : Nat) (c : α)
    (h : SomeAt act k) : SomeAt (act.set j (some c)) k := by
  rcases h with ⟨x, hx⟩
  by_cases hjk : j = k
  · subst hjk
    exact ⟨c, List.get?_set_eq_of_lt _ (get?_lt_of_some _ _ _ hx)⟩
  · exact ⟨x, by rw [List.get?_set_ne _ _ hjk]; exact hx⟩

/-- The gap-closing loop never nulls a slot: every slot that is non-null
before the loop stays non-null. -/
theorem ring_bond.closeGapsLoop_mono {α : Type} (n : Nat) :
    ∀ (s i : Nat) (c : α) (act : List (Option α)) (k : Nat),
      SomeAt act k → SomeAt (ring_bond.closeGapsLoop n s i c act) k := by
  intro s
  induction s with
  | zero => intro i c act k h; exact h
  | succ s ih =>
    intro i c act k h
    rcases hgl : act.get? (ring_bond.stepIdx n i) with _ | o
    · simp only [ring_bond.closeGapsLoop, hgl]
      exact ih _ _ _ _ (SomeAt_set _ _ _ _ h)
    · rcases o with _ | r
      · simp only [ring_bond.closeGapsLoop, hgl]
        exact ih _ _ _ _ (SomeAt_set _ _ _ _ h)
      · simp only [ring_bond.closeGapsLoop, hgl]
        exact ih _ _ _ _ h

/-- After `s` steps of the gap-closing loop, every slot whose backward
distance from the start index is between 1 and `s` is non-null. -/
theorem ring_bond.closeGapsLoop_fills {α : Type} (n : Nat) (hn : 0 < n) :
    ∀ (s i : Nat) (c : α) (act : List (Option α)),
      act.length = n → i < n →
      ∀ k, k < n → 1 ≤ backDist n i k → backDist n i k ≤ s →
        SomeAt (ring_bond.closeGapsLoop n s i c act) k := by
  intro s
  induction s with
  | zero => intro i c act hlen hi k hk h1 h0; omega
  | succ s ih =>
    intro i c act hlen hi k hk h1 hs
    have hj : ring_bond.stepIdx n i < n := by
      unfold ring_bond.stepIdx; split <;> omega
    by_cases hd1 : backDist n i k = 1
    · have hkj : k = ring_bond.stepIdx n i := backDist_one n i k hi hk hd1
      rcases hgl : act.get? (ring_bond.stepIdx n i) with _ | o
      · simp only [ring_bond.closeGapsLoop, hgl]
        apply ring_bond.closeGapsLoop_mono
        rw [hkj]
        exact ⟨c, List.get?_set_eq_of_lt _ (by rw [hlen]; exact hj)⟩
      · rcases o with _ | r
        · simp only [ring_bond.closeGapsLoop, hgl]
          apply ring_bond.closeGapsLoop_mono
          rw [hkj]
          exact ⟨c, List.get?_set_eq_of_lt _ (by rw [hlen]; exact hj)⟩
        · simp only [ring_bond.closeGapsLoop, hgl]
          apply ring_bond.closeGapsLoop_mono
          rw [hkj]
          exact ⟨r, hgl⟩
    · have h2 : 2 ≤ backDist n i k := by omega
      have hstep := backDist_step n i k hi hk h2
      rcases hgl : act.get? (ring_bond.stepIdx n i) with _ | o
      · simp only [ring_bond.closeGapsLoop, hgl]
        exact ih _ _ _ (by rw [List.length_set]; exact hlen) hj k hk
          (by omega) (by omega)
      · rcases o with _ | r
        · simp only [ring_bond.closeGapsLoop, hgl]
          exact ih _ _ _ (by rw [List.length_set]; exact hlen) hj k hk
            (by omega) (by omega)
        · simp only [ring_bond.closeGapsLoop, hgl]
          exact ih _ _ _ hlen hj k hk (by omega) (by omega)

/-- The initial scan returns a slot that really holds the value found. -/
theorem ring_bond.firstActive_spec {α : Type} :
    ∀ (act : List (Option α)) (i : Nat) (r : α),
      ring_bond.firstActive act = some (i, r) → act.get? i = some (some r) := by
  intro act
  induction act with
  | nil => intro i r h; cases h
  | cons x rest ih =>
    intro i r h
    cases x with
    | some v =>
      simp only [ring_bond.firstActive, Option.some.injEq, Prod.mk.injEq] at h
      rcases h with ⟨h1, h2⟩
      subst h1; subst h2
      rfl
    | none =>
      simp only [ring_bond.firstActive] at h
      rcases ho : ring_bond.firstActive rest with _ | p
      · rw [ho] at h; cases h
      · rw [ho] at h
        rcases p with ⟨pi, pr⟩
        simp only [Option.map_some', Option.some.injEq, Prod.mk.injEq] at h
        rcases h with ⟨h1, h2⟩
        subst h1; subst h2
        simpa using ih pi pr ho

/-- The initial scan finds a slot whenever some slot is non-null. -/
theorem ring_bond.firstActive_ne_none {α : Type} :
    ∀ act : List (Option α), (∃ k x, act.get? k = some (some x)) →
      ring_bond.firstActive act ≠ none := by
  intro act
  induction act with
  | nil => rintro ⟨k, x, hk⟩ _; cases hk
  | cons a rest ih =>
    rintro ⟨k, x, hk⟩ hnone
    cases a with
    | some v => simp [ring_bond.firstActive] at hnone
    | none =>
      simp only [ring_bond.firstActive, Option.map_eq_none'] at hnone
      cases k with
      | zero => simp at hk
      | succ m => exact ih ⟨m, x, by simpa using hk⟩ hnone

/-- `close_gaps_active_rings` makes every slot non-null as soon as at
least one slot is non-null. -/
theorem ring_bond.close_gaps_all_some {α : Type} (act : List (Option α))
    (h : ∃ k x, act.get? k = some (some x)) :
    ∀ j, j < act.length → SomeAt (ring_bond.close_gaps_active_rings act) j := by
  intro j hj
  rcases hfa : ring_bond.firstActive act with _ | p
  · exact absurd hfa (ring_bond.firstActive_ne_none act h)
  · rcases p with ⟨fa, r⟩
    have hget := ring_bond.firstActive_spec act fa r hfa
    have hfa_lt : fa < act.length := get?_lt_of_some _ _ _ hget
    have hn : 0 < act.length := by omega
    simp only [ring_bond.close_gaps_active_rings, hfa]
    by_cases hji : j = fa
    · subst hji
      exact ring_bond.closeGapsLoop_mono act.length _ _ _ _ _ ⟨r, hget⟩
    · have hd0 : ¬ backDist act.length fa j = 0 := by
        intro h0
        exact hji ((backDist_eq_zero_iff act.length fa j hfa_lt hj).1 h0).symm
      have hdlt : backDist act.length fa j < act.length := Nat.mod_lt _ hn
      exact ring_bond.closeGapsLoop_fills act.length hn (act.length - 1) fa r
        act rfl hfa_lt j hj (by omega) (by omega)

/-- C1: for every member count in [1,10] and every active-flag
configuration with at least one member active, after the reconfiguration
performed by `restart` / `create_slave_list` (active-slot assignment
followed by `close_gaps_active_rings`) every slot of the active array
holds a non-null member-ring pointer. -/
theorem C1_restart_gap_closing (flags : List Bool)
    (h1 : 1 ≤ flags.length) (h10 : flags.length ≤ 10)
    (hact : ∃ i, i < flags.length ∧ flags.getD i false = true) :
    ∀ j, j < flags.length →
      ∃ x, (ring_bond.restartActive flags).get? j = some (some x) := by
  intro j hj
  have hlen : (ring_bond.assignActive flags).length = flags.length := by
    simp [ring_bond.assignActive]
  have hex : ∃ k x, (ring_bond.assignActive flags).get? k = some (some x) := by
    rcases hact with ⟨i, hi, hfl⟩
    refine ⟨i, i, ?_⟩
    have hfl2 : flags[i]?.getD false = true := by simpa using hfl
    simp [ring_bond.assignActive, List.getElem?_range hi, hfl2]
  have hmain := ring_bond.close_gaps_all_some (ring_bond.assignActive flags)
    hex j (by omega)
  simpa [ring_bond.restartActive, SomeAt] using hmain

/-- Witness for C1: three members with only the middle one active; after
reconfiguration slot 0 is non-null. -/
theorem C1_restart_gap_closing_witness :
    ∃ x, (ring_bond.restartActive [false, true, false]).get? 0 =
      some (some x) :=
  C1_restart_gap_closing [false, true, false] (by decide) (by decide)
    ⟨1, by decide, by decide⟩ 0 (by decide)

/-! ## C7: buffer-ownership routing -/

/-- A successful probe returns an index that really holds the owner. -/
theorem ring_bond.findOwnerAux_some (rings : List Nat) (owner : Nat) :
    ∀ (fuel index i : Nat),
      ring_bond.findOwnerAux rings owner fuel index = some i →
      rings.get? i = some owner := by
  intro fuel
  induction fuel with
  | zero => intro index i h; cases h
  | succ fuel ih =>
    intro index i h
    unfold ring_bond.findOwnerAux at h
    by_cases hm : rings.get? index = some owner
    · rw [if_pos hm] at h
      injection h with h2
      subst h2
      exact hm
    · rw [if_neg hm] at h
      exact ih _ _ h

/-- Shifting by a suitable `c < n` reaches any residue `j < n`. -/
theorem mod_shift_surj (n hint j : Nat) (hj : j < n) (hh : hint < n) :
    ∃ c, c < n ∧ (hint + c) % n = j := by
  by_cases hle : hint ≤ j
  · refine ⟨j - hint, by omega, ?_⟩
    have he : hint + (j - hint) = j := by omega
    rw [he]
    exact Nat.mod_eq_of_lt hj
  · refine ⟨j + n - hint, by omega, ?_⟩
    have he : hint + (j + n - hint) = j + n := by omega
    rw [he, Nat.add_mod_right]
    exact Nat.mod_eq_of_lt hj

/-- A failed probe means no index in the scanned window holds the owner. -/
theorem ring_bond.findOwnerAux_none (rings : List Nat) (owner : Nat)
    (hn : 0 < rings.length) :
    ∀ (fuel index : Nat), index < rings.length →
      ring_bond.findOwnerAux rings owner fuel index = none →
      ∀ c, c < fuel → rings.get? ((index + c) % rings.length) ≠ some owner := by
  intro fuel
  induction fuel with
  | zero => intro index hidx h c hc; omega
  | succ fuel ih =>
    intro index hidx h c hc
    unfold ring_bond.findOwnerAux at h
    by_cases hm : rings.get? index = some owner
    · rw [if_pos hm] at h; cases h
    · rw [if_neg hm] at h
      cases c with
      | zero =>
        rw [Nat.add_zero, Nat.mod_eq_of_lt hidx]
        exact hm
      | succ c2 =>
        have h2 := ih ((index + 1) % rings.length) (Nat.mod_lt _ hn) h c2
          (by omega)
        have he : ((index + 1) % rings.length + c2) % rings.length =
            (index + (c2 + 1)) % rings.length := by
          rw [Nat.mod_add_mod]
          congr 1
          omega
        rw [← he]
        exact h2

/-- A full-window probe finds an index whenever the owner is a member. -/
theorem ring_bond.findOwnerAux_mem (rings : List Nat) (owner : Nat)
    (hmem : owner ∈ rings) (index : Nat) (hidx : index < rings.length) :
    ∃ i, ring_bond.findOwnerAux rings owner rings.length index = some i := by
  have hn : 0 < rings.length := by
    cases rings with
    | nil => cases hmem
    | cons a as => simp
  rcases hres : ring_bond.findOwnerAux rings owner rings.length index
    with _ | i
  · exfalso
    rcases List.mem_iff_get?.1 hmem with ⟨j, hj⟩
    have hjlt : j < rings.length := get?_lt_of_some _ _ _ hj
    rcases mod_shift_surj rings.length index j hjlt hidx with ⟨c, hc, hcm⟩
    exact ring_bond.findOwnerAux_none rings owner hn rings.length index hidx
      hres c hc (by rw [hcm]; exact hj)
  · exact ⟨i, rfl⟩

/-- Under `Nodup`, a full-window probe returns the unique owner index,
independent of the start hint. -/
theorem ring_bond.findOwnerAux_unique (rings : List Nat) (owner : Nat)
    (hnd : rings.Nodup) (j : Nat) (hj : rings.get? j = some owner)
    (index : Nat) (hidx : index < rings.length) :
    ring_bond.findOwnerAux rings owner rings.length index = some j := by
  rcases ring_bond.findOwnerAux_mem rings owner (List.get?_mem hj) index hidx
    with ⟨i, hi⟩
  have hgi := ring_bond.findOwnerAux_some rings owner _ _ _ hi
  have hij : i = j :=
    List.get?_inj (get?_lt_of_some _ _ _ hgi) hnd (by rw [hgi, hj])
  rw [hi, hij]

/-- A failed full-window probe means the owner is not a member. -/
theorem ring_bond.findOwnerAux_none_not_mem (rings : List Nat) (owner : Nat)
    (index : Nat) (hidx : index < rings.length)
    (h : ring_bond.findOwnerAux rings owner rings.length index = none) :
    owner ∉ rings := by
  intro hmem
  rcases ring_bond.findOwnerAux_mem rings owner hmem index hidx with ⟨i, hi⟩
  rw [h] at hi
  cases hi

/-- `sumLens` of a cons. -/
theorem sumLens_cons {α : Type} (x : List α) (l : List (List α)) :
    sumLens (x :: l) = x.length + sumLens l := by
  simp [sumLens]

/-- Appending to one bucket adds that many elements to the total. -/
theorem sumLens_set {α : Type} :
    ∀ (l : List (List α)) (i : Nat) (x : List α), i < l.length →
      sumLens (l.set i (l.getD i [] ++ x)) = sumLens l + x.length := by
  intro l
  induction l with
  | nil => intro i x h; simp at h
  | cons a as ih =>
    intro i x h
    cases i with
    | zero =>
      simp only [List.set_cons_zero, List.getD_cons_zero, sumLens_cons,
        List.length_append]
      omega
    | succ m =>
      simp only [List.set_cons_succ, List.getD_cons_succ, sumLens_cons]
      rw [ih m x (by simpa using h)]
      omega

/-- The all-empty bucket array has zero total. -/
theorem sumLens_replicate_nil {α : Type} :
    ∀ r : Nat, sumLens (List.replicate r ([] : List α)) = 0 := by
  intro r
  induction r with
  | zero => rfl
  | succ m ih => simpa [List.replicate_succ, sumLens_cons] using ih

/-- Every bucket of the all-empty bucket array is empty. -/
theorem getD_replicate_nil {α : Type} :
    ∀ r k : Nat, (List.replicate r ([] : List α)).getD k [] = [] := by
  intro r
  induction r with
  | zero => intro k; cases k <;> rfl
  | succ m ih =>
    intro k
    cases k with
    | zero => rfl
    | succ k2 => simpa [List.replicate_succ, List.getD_cons_succ] using ih k2

/-- Setting one bucket leaves that bucket's new value at its index. -/
theorem getD_set_self {α : Type} :
    ∀ (l : List α) (i : Nat) (x d : α), i < l.length →
      (l.set i x).getD i d = x := by
  intro l
  induction l with
  | nil => intro i x d h; simp at h
  | cons a as ih =>
    intro i x d h
    cases i with
    | zero => rfl
    | succ m =>
      simpa [List.set_cons_succ, List.getD_cons_succ] using
        ih m x d (by simpa using h)

/-- Setting one bucket leaves the other buckets unchanged. -/
theorem getD_set_other {α : Type} :
    ∀ (l : List α) (i j : Nat) (x d : α), i ≠ j →
      (l.set i x).getD j d = l.getD j d := by
  intro l
  induction l with
  | nil => intro i j x d h; rfl
  | cons a as ih =>
    intro i j x d h
    cases i with
    | zero =>
      cases j with
      | zero => exact absurd rfl h
      | succ m => rfl
    | succ n2 =>
      cases j with
      | zero => rfl
      | succ m =>
        simpa [List.set_cons_succ, List.getD_cons_succ] using
          ih n2 m x d (by omega)

/-- The queue-shape router conserves the total buffer count. -/
theorem ring_bond.devide_q_count (rings : List Nat) :
    ∀ (input : List mem_buf_desc_t) (acc : List (List mem_buf_desc_t))
      (hint : Nat), acc.length = rings.length + 1 →
      sumLens (ring_bond.devide_buffers_helper_q rings input acc hint) =
        sumLens acc + input.length := by
  intro input
  induction input with
  | nil => intro acc hint hlen; simp [ring_bond.devide_buffers_helper_q]
  | cons b rest ih =>
    intro acc hint hlen
    rcases hfo : ring_bond.findOwnerAux rings b.owner rings.length hint
      with _ | i
    · simp only [ring_bond.devide_buffers_helper_q, hfo]
      rw [ih _ _ (by rw [List.length_set]; exact hlen)]
      rw [sumLens_set _ _ _ (by omega)]
      simp only [List.length_cons, List.length_nil]
      omega
    · have hi : i < rings.length :=
        get?_lt_of_some _ _ _ (ring_bond.findOwnerAux_some rings b.owner _ _ _ hfo)
      simp only [ring_bond.devide_buffers_helper_q, hfo]
      rw [ih _ _ (by rw [List.length_set]; exact hlen)]
      rw [sumLens_set _ _ _ (by omega)]
      simp only [List.length_cons, List.length_nil]
      omega

/-- Characterization of the queue-shape router under distinct member
rings: every member bucket receives exactly the input buffers owned by
that member, in input order, and the overflow bucket receives exactly
the unowned buffers, in input order. -/
theorem ring_bond.devide_q_spec (rings : List Nat) (hnd : rings.Nodup) :
    ∀ (input : List mem_buf_desc_t) (acc : List (List mem_buf_desc_t))
      (hint : Nat), hint < rings.length → acc.length = rings.length + 1 →
      (∀ k, k < rings.length →
        (ring_bond.devide_buffers_helper_q rings input acc hint).getD k [] =
          acc.getD k [] ++
            input.filter (fun x => decide (rings.get? k = some x.owner))) ∧
      (ring_bond.devide_buffers_helper_q rings input acc hint).getD
          rings.length [] =
        acc.getD rings.length [] ++
          input.filter (fun x => decide (x.owner ∉ rings)) := by
  intro input
  induction input with
  | nil =>
    intro acc hint hh hlen
    constructor
    · intro k hk; simp [ring_bond.devide_buffers_helper_q]
    · simp [ring_bond.devide_buffers_helper_q]
  | cons b rest ih =>
    intro acc hint hh hlen
    rcases hfo : ring_bond.findOwnerAux rings b.owner rings.length hint
      with _ | i
    · have hnotmem : b.owner ∉ rings :=
        ring_bond.findOwnerAux_none_not_mem rings b.owner hint hh hfo
      have hih := ih (acc.set rings.length (acc.getD rings.length [] ++ [b]))
        hint hh (by rw [List.length_set]; exact hlen)
      constructor
      · intro k hk
        simp only [ring_bond.devide_buffers_helper_q, hfo]
        rw [hih.1 k hk, getD_set_other _ _ _ _ _ (by omega)]
        have hPk : ¬ rings.get? k = some b.owner := by
          intro hP
          exact hnotmem (List.get?_mem hP)
        rw [List.filter_cons_of_neg (by simpa using hPk)]
      · simp only [ring_bond.devide_buffers_helper_q, hfo]
        rw [hih.2, getD_set_self _ _ _ _ (by omega)]
        rw [List.filter_cons_of_pos (by simpa using hnotmem)]
        simp
    · have hgi : rings.get? i = some b.owner :=
        ring_bond.findOwnerAux_some rings b.owner _ _ _ hfo
      have hilt : i < rings.length := get?_lt_of_some _ _ _ hgi
      have hih := ih (acc.set i (acc.getD i [] ++ [b])) i hilt
        (by rw [List.length_set]; exact hlen)
      constructor
      · intro k hk
        simp only [ring_bond.devide_buffers_helper_q, hfo]
        rw [hih.1 k hk]
        by_cases hki : k = i
        · subst hki
          rw [getD_set_self _ _ _ _ (by omega)]
          rw [List.filter_cons_of_pos (by simpa using hgi)]
          simp
        · rw [getD_set_other _ _ _ _ _ (by omega)]
          have hPk : ¬ rings.get? k = some b.owner := by
            intro hP
            exact hki (List.get?_inj (by omega) hnd (by rw [hP, hgi]))
          rw [List.filter_cons_of_neg (by simpa using hPk)]
      · simp only [ring_bond.devide_buffers_helper_q, hfo]
        rw [hih.2, getD_set_other _ _ _ _ _ (by omega)]
        have hPn : ¬ b.owner ∉ rings := fun hq => hq (List.get?_mem hgi)
        rw [List.filter_cons_of_neg (by simpa using hPn)]

/-- Splitting a chain at the head's maximal same-owner run splits its
filter image. -/
theorem filter_run_split (b : mem_buf_desc_t) (rest : List mem_buf_desc_t)
    (q : mem_buf_desc_t → Bool) :
    (b :: rest).filter q =
      ((b :: rest.takeWhile (fun x => decide (x.owner = b.owner))).filter q) ++
      ((rest.dropWhile (fun x => decide (x.owner = b.owner))).filter q) := by
  conv_lhs =>
    rw [← List.takeWhile_append_dropWhile
      (p := fun x => decide (x.owner = b.owner)) (l := rest),
      ← List.cons_append]
  rw [List.filter_append]

/-- Every element of the head's maximal run shares the head's owner. -/
theorem run_all_owner (b : mem_buf_desc_t) (rest : List mem_buf_desc_t) :
    ∀ x ∈ b :: rest.takeWhile (fun x => decide (x.owner = b.owner)),
      x.owner = b.owner := by
  intro x hx
  rcases List.mem_cons.1 hx with h | h
  · rw [h]
  · simpa using List.mem_takeWhile_imp h

/-- Characterization of the chain-shape router under distinct member
rings: every member chain receives exactly the input buffers owned by
that member, in input order, and the pool hand-off receives exactly the
unowned buffers, in input order. (`N` bounds the input length for the
induction.) -/
theorem ring_bond.devide_chain_spec (rings : List Nat) (hnd : rings.Nodup) :
    ∀ (N : Nat) (input : List mem_buf_desc_t)
      (acc : List (List mem_buf_desc_t)), input.length ≤ N →
      acc.length = rings.length →
      (∀ k, k < rings.length →
        (ring_bond.devide_buffers_helper_chain rings input acc).1.getD k [] =
          acc.getD k [] ++
            input.filter (fun x => decide (rings.get? k = some x.owner))) ∧
      (ring_bond.devide_buffers_helper_chain rings input acc).2 =
        input.filter (fun x => decide (x.owner ∉ rings)) := by
  intro N
  induction N with
  | zero =>
    intro input acc hN hlen
    have hnil : input = [] := List.length_eq_zero.1 (by omega)
    subst hnil
    constructor
    · intro k hk; simp [ring_bond.devide_buffers_helper_chain]
    · simp [ring_bond.devide_buffers_helper_chain]
  | succ N ih =>
    intro input acc hN hlen
    cases input with
    | nil =>
      constructor
      · intro k hk; simp [ring_bond.devide_buffers_helper_chain]
      · simp [ring_bond.devide_buffers_helper_chain]
    | cons b rest =>
      have hlen2 : (rest.dropWhile
          (fun x => decide (x.owner = b.owner))).length ≤ N := by
        have hsuf := (List.dropWhile_suffix (l := rest)
          (fun x => decide (x.owner = b.owner))).length_le
        simp only [List.length_cons] at hN
        omega
      rcases hfo : ring_bond.findOwnerAux rings b.owner rings.length 0
        with _ | i
      · have hnotmem : b.owner ∉ rings := by
          rcases Nat.eq_zero_or_pos rings.length with h0 | h0
          · rw [List.length_eq_zero.1 h0]
            simp
          · exact ring_bond.findOwnerAux_none_not_mem rings b.owner 0 h0 hfo
        have hih := ih (rest.dropWhile (fun x => decide (x.owner = b.owner)))
          acc hlen2 hlen
        constructor
        · intro k hk
          simp only [ring_bond.devide_buffers_helper_chain, hfo]
          rw [hih.1 k hk, filter_run_split]
          have hrun : ((b :: rest.takeWhile
              (fun x => decide (x.owner = b.owner))).filter
              (fun x => decide (rings.get? k = some x.owner))) = [] := by
            rw [List.filter_eq_nil]
            intro x hx
            have hxo := run_all_owner b rest x hx
            simp only [decide_eq_true_eq]
            intro hP
            rw [hxo] at hP
            exact hnotmem (List.get?_mem hP)
          rw [hrun, List.nil_append]
        · simp only [ring_bond.devide_buffers_helper_chain, hfo]
          rw [hih.2, filter_run_split]
          have hrun : ((b :: rest.takeWhile
              (fun x => decide (x.owner = b.owner))).filter
              (fun x => decide (x.owner ∉ rings))) =
              b :: rest.takeWhile (fun x => decide (x.owner = b.owner)) := by
            rw [List.filter_eq_self]
            intro x hx
            have hxo := run_all_owner b rest x hx
            simp only [decide_eq_true_eq]
            rw [hxo]
            exact hnotmem
          rw [hrun]
      · have hgi : rings.get? i = some b.owner :=
          ring_bond.findOwnerAux_some rings b.owner _ _ _ hfo
        have hilt : i < rings.length := get?_lt_of_some _ _ _ hgi
        have hih := ih (rest.dropWhile (fun x => decide (x.owner = b.owner)))
          (acc.set i (acc.getD i []
            ++ (b :: rest.takeWhile (fun x => decide (x.owner = b.owner)))))
          hlen2 (by rw [List.length_set]; exact hlen)
        constructor
        · intro k hk
          simp only [ring_bond.devide_buffers_helper_chain, hfo]
          rw [hih.1 k hk, filter_run_split]
          by_cases hki : k = i
          · subst hki
            rw [getD_set_self _ _ _ _ (by omega)]
            have hrun : ((b :: rest.takeWhile
                (fun x => decide (x.owner = b.owner))).filter
                (fun x => decide (rings.get? k = some x.owner))) =
                b :: rest.takeWhile (fun x => decide (x.owner = b.owner)) := by
              rw [List.filter_eq_self]
              intro x hx
              have hxo := run_all_owner b rest x hx
              simp only [decide_eq_true_eq]
              rw [hxo]
              exact hgi
            rw [hrun, List.append_assoc]
          · rw [getD_set_other _ _ _ _ _ (by omega)]
            have hrun : ((b :: rest.takeWhile
                (fun x => decide (x.owner = b.owner))).filter
                (fun x => decide (rings.get? k = some x.owner))) = [] := by
              rw [List.filter_eq_nil]
              intro x hx
              have hxo := run_all_owner b rest x hx
              simp only [decide_eq_true_eq]
              intro hP
              rw [hxo] at hP
              exact hki (List.get?_inj (by omega) hnd (by rw [hP, hgi]))
            rw [hrun, List.nil_append]
        · simp only [ring_bond.devide_buffers_helper_chain, hfo]
          rw [hih.2, filter_run_split]
          have hrun : ((b :: rest.takeWhile
              (fun x => decide (x.owner = b.owner))).filter
              (fun x => decide (x.owner ∉ rings))) = [] := by
            rw [List.filter_eq_nil]
            intro x hx
            have hxo := run_all_owner b rest x hx
            simp only [decide_eq_true_eq, not_not]
            rw [hxo]
            exact List.get?_mem hgi
          rw [hrun, List.nil_append]

/-- The chain-shape router conserves the total buffer count: member
chains plus the pool hand-off together hold exactly the input. -/
theorem ring_bond.devide_chain_count (rings : List Nat) :
    ∀ (N : Nat) (input : List mem_buf_desc_t)
      (acc : List (List mem_buf_desc_t)), input.length ≤ N →
      acc.length = rings.length →
      sumLens (ring_bond.devide_buffers_helper_chain rings input acc).1 +
        (ring_bond.devide_buffers_helper_chain rings input acc).2.length =
      sumLens acc + input.length := by
  intro N
  induction N with
  | zero =>
    intro input acc hN hlen
    have hnil : input = [] := List.length_eq_zero.1 (by omega)
    subst hnil
    simp [ring_bond.devide_buffers_helper_chain]
  | succ N ih =>
    intro input acc hN hlen
    cases input with
    | nil => simp [ring_bond.devide_buffers_helper_chain]
    | cons b rest =>
      have hsplit : (rest.takeWhile
            (fun x => decide (x.owner = b.owner))).length +
          (rest.dropWhile (fun x => decide (x.owner = b.owner))).length =
          rest.length := by
        conv_rhs => rw [← List.takeWhile_append_dropWhile
          (p := fun x => decide (x.owner = b.owner)) (l := rest)]
        rw [List.length_append]
      have hlen2 : (rest.dropWhile
          (fun x => decide (x.owner = b.owner))).length ≤ N := by
        simp only [List.length_cons] at hN
        omega
      rcases hfo : ring_bond.findOwnerAux rings b.owner rings.length 0
        with _ | i
      · have hih := ih (rest.dropWhile (fun x => decide (x.owner = b.owner)))
          acc hlen2 hlen
        simp only [ring_bond.devide_buffers_helper_chain, hfo,
          List.length_append, List.length_cons]
        omega
      · have hgi : rings.get? i = some b.owner :=
          ring_bond.findOwnerAux_some rings b.owner _ _ _ hfo
        have hilt : i < rings.length := get?_lt_of_some _ _ _ hgi
        have hih := ih (rest.dropWhile (fun x => decide (x.owner = b.owner)))
          (acc.set i (acc.getD i []
            ++ (b :: rest.takeWhile (fun x => decide (x.owner = b.owner)))))
          hlen2 (by rw [List.length_set]; exact hlen)
        simp only [ring_bond.devide_buffers_helper_chain, hfo]
        rw [hih, sumLens_set _ _ _ (by omega)]
        simp only [List.length_cons]
        omega

/-- C7: both shapes of `devide_buffers_helper` (the queue shape used by
`reclaim_recv_buffers` and the chain shape used by
`mem_buf_tx_release`) partition the input so that every member bucket
holds exactly the buffers owned by that member in input order, the
overflow/pool holds exactly the unowned buffers in input order, and the
bucket sizes together with the overflow size sum to the input length. -/
theorem C7_buffer_ownership_routing (rings : List Nat) (hnd : rings.Nodup)
    (hn : 0 < rings.length) (input : List mem_buf_desc_t) :
    (∀ k, k < rings.length →
      (ring_bond.reclaimBuckets rings input).getD k [] =
        input.filter (fun x => decide (rings.get? k = some x.owner))) ∧
    (ring_bond.reclaimBuckets rings input).getD rings.length [] =
      input.filter (fun x => decide (x.owner ∉ rings)) ∧
    sumLens (ring_bond.reclaimBuckets rings input) = input.length ∧
    (∀ k, k < rings.length →
      (ring_bond.mem_buf_tx_release_route rings input).1.getD k [] =
        input.filter (fun x => decide (rings.get? k = some x.owner))) ∧
    (ring_bond.mem_buf_tx_release_route rings input).2 =
      input.filter (fun x => decide (x.owner ∉ rings)) ∧
    sumLens (ring_bond.mem_buf_tx_release_route rings input).1 +
      (ring_bond.mem_buf_tx_release_route rings input).2.length =
      input.length := by
  have hq := ring_bond.devide_q_spec rings hnd input
    (List.replicate (rings.length + 1) []) 0 hn
    (by rw [List.length_replicate])
  have hqc := ring_bond.devide_q_count rings input
    (List.replicate (rings.length + 1) []) 0 (by rw [List.length_replicate])
  have hc := ring_bond.devide_chain_spec rings hnd input.length input
    (List.replicate rings.length []) (le_refl _) (by rw [List.length_replicate])
  have hcc := ring_bond.devide_chain_count rings input.length input
    (List.replicate rings.length []) (le_refl _) (by rw [List.length_replicate])
  refine ⟨?_, ?_, ?_, ?_, ?_, ?_⟩
  · intro k hk
    have := hq.1 k hk
    rw [getD_replicate_nil, List.nil_append] at this
    exact this
  · have := hq.2
    rw [getD_replicate_nil, List.nil_append] at this
    exact this
  · rw [ring_bond.reclaimBuckets] at *
    rw [hqc, sumLens_replicate_nil, Nat.zero_add]
  · intro k hk
    have := hc.1 k hk
    rw [getD_replicate_nil, List.nil_append] at this
    exact this
  · exact hc.2
  · rw [ring_bond.mem_buf_tx_release_route] at *
    rw [hcc, sumLens_replicate_nil, Nat.zero_add]

/-- Witness for C7 at two distinct member rings and three buffers (two
owned, one unowned): the total routed count equals the input length. -/
theorem C7_buffer_ownership_routing_witness :
    sumLens (ring_bond.reclaimBuckets [5, 7]
      [⟨7, none⟩, ⟨5, none⟩, ⟨9, none⟩]) = 3 :=
  (C7_buffer_ownership_routing [5, 7] (by decide) (by decide)
    [⟨7, none⟩, ⟨5, none⟩, ⟨9, none⟩]).2.2.1

/-! ## C3: stale-ownership drop on transmit -/

/-- C3: when the buffer's owning ring is not the current active member
for `id` (including the case of a null active slot), `send_ring_buffer`
never hands the buffer to hardware, returns no error (its outcome is a
release, never an error value), nulls the buffer's chain link, and
releases the buffer to the member ring at slot `id` exactly when that
ring owns it, otherwise through the bond-level ownership routing — and
that routing delivers the single detached buffer to exactly one place. -/
theorem C3_send_ring_buffer_stale_drop (active : List (Option Nat))
    (bond : List Nat) (id : Nat) (buf : mem_buf_desc_t)
    (hstale : active.getD id none ≠ some buf.owner) :
    (∀ r b2, ring_bond.send_ring_buffer active bond id buf ≠
      TxOutcome.sentToHW r b2) ∧
    (ring_bond.send_ring_buffer active bond id buf =
      if buf.owner = bond.getD id 0
      then TxOutcome.releasedToRing (bond.getD id 0)
        { buf with p_next_desc := none }
      else TxOutcome.releasedViaRouting { buf with p_next_desc := none }) ∧
    sumLens (ring_bond.mem_buf_tx_release_route bond
        [{ buf with p_next_desc := none }]).1 +
      (ring_bond.mem_buf_tx_release_route bond
        [{ buf with p_next_desc := none }]).2.length = 1 := by
  refine ⟨?_, ?_, ?_⟩
  · intro r b2
    simp only [ring_bond.send_ring_buffer, if_neg hstale]
    split <;> simp
  · simp only [ring_bond.send_ring_buffer, if_neg hstale]
  · rw [ring_bond.mem_buf_tx_release_route]
    rw [ring_bond.devide_chain_count bond 1 _ _ (by simp)
      (by rw [List.length_replicate])]
    rw [sumLens_replicate_nil]
    rfl

/-- Witness for C3: one member ring 2, active slot pointing at ring 1,
and a buffer owned by ring 2 — the buffer is released to ring 2 with its
chain link nulled, not sent to hardware. -/
theorem C3_send_ring_buffer_stale_drop_witness :
    (∀ r b2, ring_bond.send_ring_buffer [some 1] [2] 0 ⟨2, some 3⟩ ≠
      TxOutcome.sentToHW r b2) ∧
    (ring_bond.send_ring_buffer [some 1] [2] 0 ⟨2, some 3⟩ =
      if (2 : Nat) = List.getD [2] 0 0
      then TxOutcome.releasedToRing (List.getD [2] 0 0) ⟨2, none⟩
      else TxOutcome.releasedViaRouting ⟨2, none⟩) ∧
    sumLens (ring_bond.mem_buf_tx_release_route [2] [⟨2, none⟩]).1 +
      (ring_bond.mem_buf_tx_release_route [2] [⟨2, none⟩]).2.length = 1 :=
  C3_send_ring_buffer_stale_drop [some 1] [2] 0 ⟨2, some 3⟩ (by decide)

/-! ## C5: the cyclic consumer -/

/-- `mp_loop` never decreases the accumulated packet count (`N` bounds
the CQ content length for the induction). -/
theorem ring_eth_cb.mp_loop_packets_mono :
    ∀ (N : Nat) (limit : Nat) (s : ring_eth_cb_state),
      s.cq_records.length ≤ N →
      s.m_curr_packets ≤ (ring_eth_cb.mp_loop limit s).2.m_curr_packets := by
  intro N
  induction N with
  | zero =>
    intro limit s hN
    rw [ring_eth_cb.mp_loop]
    split
    · split
      · exact Nat.le_refl _
      · rename_i c rest hrec
        exfalso
        rw [hrec] at hN
        simp at hN
    · exact Nat.le_refl _
  | succ N ih =>
    intro limit s hN
    rw [ring_eth_cb.mp_loop]
    split
    · split
      · exact Nat.le_refl _
      · rename_i c rest hrec
        simp only []
        split
        · exact Nat.le_refl _
        · split
          · exact Nat.le_refl _
          · split
            · split <;> simp [ring_eth_cb.reload_wq]
            · split
              · simp [ring_eth_cb.reload_wq]
              · have hlen : ({ s with
                    m_stride_counter := (cq_mgr_mp.poll_mp_cq (some c) 0
                      s.m_stride_counter 0 0 s.m_pow_stride_size
                      s.cq_cons_index).strides_used,
                    cq_cons_index := (cq_mgr_mp.poll_mp_cq (some c) 0
                      s.m_stride_counter 0 0 s.m_pow_stride_size
                      s.cq_cons_index).consIndex,
                    cq_records := rest,
                    m_curr_size := s.m_curr_size + (cq_mgr_mp.poll_mp_cq (some c)
                      0 s.m_stride_counter 0 0 s.m_pow_stride_size
                      s.cq_cons_index).size,
                    m_curr_packets := s.m_curr_packets + 1 } :
                    ring_eth_cb_state).cq_records.length ≤ N := by
                  rw [hrec] at hN
                  simpa using Nat.le_of_succ_le_succ hN
                have hrec2 := ih limit _ hlen
                simp only [] at hrec2
                omega
    · exact Nat.le_refl _

/-- Every path of `cyclic_buffer_read` either returns without writing
the caller's completion, or emits through the single emit point, which
clears the accumulation discriminator. -/
theorem ring_eth_cb.cyclic_buffer_read_shape (s : ring_eth_cb_state)
    (compMask mn mx : Nat) (fl : Int) :
    (∃ ret s2, ring_eth_cb.cyclic_buffer_read s compMask mn mx fl =
      (ret, none, s2)) ∨
    (∃ t, ring_eth_cb.cyclic_buffer_read s compMask mn mx fl =
      (0, some (ring_eth_cb.emitCompletion compMask t),
        { t with m_curr_d_addr := none })) := by
  unfold ring_eth_cb.cyclic_buffer_read
  split
  · exact Or.inl ⟨-1, s, rfl⟩
  · split
    · exact Or.inl ⟨0, s, rfl⟩
    · split
      · exact Or.inl ⟨0, _, rfl⟩
      · split
        · exact Or.inl ⟨-1, _, rfl⟩
        · split
          · split
            · exact Or.inr ⟨_, rfl⟩
            · split
              · exact Or.inr ⟨_, rfl⟩
              · split
                · exact Or.inl ⟨0, _, rfl⟩
                · exact Or.inr ⟨_, rfl⟩
          · exact Or.inr ⟨_, rfl⟩

/-- The accumulation step always leaves at least one packet pending. -/
theorem ring_eth_cb.seedOrAccum_packets (compMask : Nat) (c : mlx5_cqe64)
    (r : PollOut) (s1 : ring_eth_cb_state) :
    1 ≤ (ring_eth_cb.seedOrAccum compMask c r s1).m_curr_packets := by
  unfold ring_eth_cb.seedOrAccum
  split <;> simp

/-- C5 counterexample: on a freshly constructed consumer (zero packets
accumulated) whose first record is a filler, `cyclic_buffer_read`
returns 0 and emits a completion with a null payload pointer and a
packet count of zero — so an emitted completion can have zero packets,
and a bad record does not leave the accumulation state untouched (the
discriminator is consumed by the emit). -/
theorem C5_counterexample :
    (ring_eth_cb.cyclic_buffer_read C5_fresh_state 0 1 1 MSG_DONTWAIT).1 = 0 ∧
    (ring_eth_cb.cyclic_buffer_read C5_fresh_state 0 1 1 MSG_DONTWAIT).2.1 =
      some ⟨none, 0, 0, none, 0, 0⟩ := by
  exact ⟨by decide, by decide⟩

/-- C5 (amended): (a) every emitted completion resets the accumulation
discriminator `m_curr_d_addr` to empty (the emit point runs exactly once
per call); (b) when the first decoded record of the call is good (not
marked bad), any completion emitted by the call carries at least one
packet; (c) when the first decoded record is bad, the call does not run
the accumulation step — it emits the previously accumulated completion
as-is (possibly with zero packets, see the counterexample) and leaves
the accumulated packet/byte counters and work-queue index unchanged,
changing only the decoder bookkeeping (stride total, consumption index,
consumed record) and the cleared discriminator. -/
theorem C5_cyclic_consumer_amended (s : ring_eth_cb_state)
    (compMask mn mx : Nat) (fl : Int) :
    (∀ comp,
      (ring_eth_cb.cyclic_buffer_read s compMask mn mx fl).2.1 = some comp →
      (ring_eth_cb.cyclic_buffer_read s compMask mn mx fl).2.2.m_curr_d_addr =
        none) ∧
    (∀ c rest, s.cq_records = c :: rest →
      (ring_eth_cb.pollOnce s c).flags &&& VMA_MP_RQ_BAD_PACKET = 0 →
      ∀ comp,
        (ring_eth_cb.cyclic_buffer_read s compMask mn mx fl).2.1 = some comp →
        1 ≤ comp.packets) ∧
    (∀ c rest, s.cq_records = c :: rest →
      ¬(mn > mx ∨ mx = 0 ∨ fl ≠ MSG_DONTWAIT) →
      (ring_eth_cb.pollOnce s c).size ≠ 0 →
      (ring_eth_cb.pollOnce s c).ret ≠ -1 →
      (ring_eth_cb.pollOnce s c).flags &&& VMA_MP_RQ_BAD_PACKET ≠ 0 →
      ring_eth_cb.cyclic_buffer_read s compMask mn mx fl =
        (0, some (ring_eth_cb.emitCompletion compMask
            (ring_eth_cb.consume s c rest)),
         { ring_eth_cb.consume s c rest with m_curr_d_addr := none }) ∧
      (ring_eth_cb.emitCompletion compMask
          (ring_eth_cb.consume s c rest)).packets = s.m_curr_packets ∧
      (ring_eth_cb.emitCompletion compMask
          (ring_eth_cb.consume s c rest)).payload_length = s.m_curr_size ∧
      (ring_eth_cb.emitCompletion compMask
          (ring_eth_cb.consume s c rest)).payload_ptr = s.m_curr_d_addr ∧
      (ring_eth_cb.consume s c rest).m_curr_packets = s.m_curr_packets ∧
      (ring_eth_cb.consume s c rest).m_curr_size = s.m_curr_size ∧
      (ring_eth_cb.consume s c rest).m_curr_wq = s.m_curr_wq ∧
      (ring_eth_cb.consume s c rest).m_stride_counter =
        (ring_eth_cb.pollOnce s c).strides_used ∧
      (ring_eth_cb.consume s c rest).cq_records = rest) := by
  refine ⟨?_, ?_, ?_⟩
  · intro comp hcomp
    rcases ring_eth_cb.cyclic_buffer_read_shape s compMask mn mx fl with
      ⟨ret, s2, h⟩ | ⟨t, h⟩
    · rw [h] at hcomp; cases hcomp
    · rw [h]
  · intro c rest hrec hgood comp hcomp
    unfold ring_eth_cb.cyclic_buffer_read at hcomp
    by_cases hsan : (mn > mx ∨ mx = 0 ∨ fl ≠ MSG_DONTWAIT)
    · rw [if_pos hsan] at hcomp; cases hcomp
    · rw [if_neg hsan] at hcomp
      simp only [hrec] at hcomp
      by_cases hsize : (ring_eth_cb.pollOnce s c).size = 0
      · rw [if_pos hsize] at hcomp; cases hcomp
      · rw [if_neg hsize] at hcomp
        by_cases hret : (ring_eth_cb.pollOnce s c).ret = -1
        · rw [if_pos hret] at hcomp; cases hcomp
        · rw [if_neg hret, if_pos hgood] at hcomp
          have h1 := ring_eth_cb.seedOrAccum_packets compMask c
            (ring_eth_cb.pollOnce s c) (ring_eth_cb.consume s c rest)
          by_cases hstr : (ring_eth_cb.seedOrAccum compMask c
              (ring_eth_cb.pollOnce s c)
              (ring_eth_cb.consume s c rest)).m_stride_counter ≥
            (ring_eth_cb.seedOrAccum compMask c (ring_eth_cb.pollOnce s c)
              (ring_eth_cb.consume s c rest)).m_pow_strides_num
          · rw [if_pos hstr] at hcomp
            simp only [ring_eth_cb.emitNow] at hcomp
            injection hcomp with e3
            subst e3
            simpa [ring_eth_cb.emitCompletion, ring_eth_cb.reload_wq] using h1
          · rw [if_neg hstr] at hcomp
            have h2 := ring_eth_cb.mp_loop_packets_mono
              (ring_eth_cb.seedOrAccum compMask c (ring_eth_cb.pollOnce s c)
                (ring_eth_cb.consume s c rest)).cq_records.length mn
              (ring_eth_cb.seedOrAccum compMask c (ring_eth_cb.pollOnce s c)
                (ring_eth_cb.consume s c rest)) (Nat.le_refl _)
            by_cases hlp1 : (ring_eth_cb.mp_loop mn
                (ring_eth_cb.seedOrAccum compMask c (ring_eth_cb.pollOnce s c)
                  (ring_eth_cb.consume s c rest))).1 = 1
            · rw [if_pos hlp1] at hcomp
              simp only [ring_eth_cb.emitNow] at hcomp
              injection hcomp with e3
              subst e3
              have h3 := ring_eth_cb.mp_loop_packets_mono
                ((ring_eth_cb.mp_loop mn
                  (ring_eth_cb.seedOrAccum compMask c
                    (ring_eth_cb.pollOnce s c)
                    (ring_eth_cb.consume s c rest))).2).cq_records.length mx
                (ring_eth_cb.mp_loop mn
                  (ring_eth_cb.seedOrAccum compMask c
                    (ring_eth_cb.pollOnce s c)
                    (ring_eth_cb.consume s c rest))).2 (Nat.le_refl _)
              simp only [ring_eth_cb.emitCompletion]
              omega
            · rw [if_neg hlp1] at hcomp
              by_cases hlp0 : (ring_eth_cb.mp_loop mn
                  (ring_eth_cb.seedOrAccum compMask c
                    (ring_eth_cb.pollOnce s c)
                    (ring_eth_cb.consume s c rest))).1 = 0
              · rw [if_pos hlp0] at hcomp; cases hcomp
              · rw [if_neg hlp0] at hcomp
                simp only [ring_eth_cb.emitNow] at hcomp
                injection hcomp with e3
                subst e3
                simp only [ring_eth_cb.emitCompletion]
                omega
  · intro c rest hrec hsan hsize hret hbad
    refine ⟨?_, ?_, ?_, ?_, ?_, ?_, ?_, ?_, ?_⟩
    · unfold ring_eth_cb.cyclic_buffer_read
      rw [if_neg hsan]
      simp only [hrec]
      rw [if_neg hsize, if_neg hret, if_neg hbad]
      rfl
    · simp [ring_eth_cb.emitCompletion, ring_eth_cb.consume, if_neg hret]
    · simp [ring_eth_cb.emitCompletion, ring_eth_cb.consume, if_neg hret]
    · simp [ring_eth_cb.emitCompletion, ring_eth_cb.consume, if_neg hret]
    · simp [ring_eth_cb.consume, if_neg hret]
    · simp [ring_eth_cb.consume, if_neg hret]
    · simp [ring_eth_cb.consume, if_neg hret]
    · simp [ring_eth_cb.consume, if_neg hret]
    · simp [ring_eth_cb.consume, if_neg hret]

/-- Witness for C5 (amended): on the concrete filler-record run the
emitted completion leaves the accumulation discriminator cleared. -/
theorem C5_cyclic_consumer_amended_witness :
    (ring_eth_cb.cyclic_buffer_read C5_fresh_state 0 1 1
      MSG_DONTWAIT).2.2.m_curr_d_addr = none :=
  (C5_cyclic_consumer_amended C5_fresh_state 0 1 1 MSG_DONTWAIT).1
    ⟨none, 0, 0, none, 0, 0⟩ (by decide)
